import Mathlib

/-!
Verification development for the rule-identifier resolution and
options-validation subsystem of a flat-config linter.

The JavaScript sources are embedded shallowly:
* JS strings are `List Char`; JS objects used as string-keyed maps are
  association lists (`List (List Char × _)`), with `none` standing for a
  missing (`undefined`/`null`) property.
* Thrown JS exceptions are modelled with `Except JsError`.
* Object identity (needed by the `WeakMap`-keyed validator cache) is modelled
  with explicit identity tags (`ObjId`); allocation of the fresh wrapper
  objects created by `getRuleFromConfig` is modelled with a counter threaded
  through the state of a `RuleValidator` instance.
* The external JSON-Schema engine (ajv) is not part of the repository; its
  behaviour is modelled from the spec where the embedded code depends on it.
-/

namespace Eslint

/-- A JSON value, as passed around by the embedded code.  `undef` stands for
JavaScript `undefined`, which is not a JSON value but can be handed to a
compiled validator.  `objV` is an opaque non-array object. -/
inductive JsonValue where
  | nullV
  | undef
  | boolV (b : Bool)
  | numV (n : Int)
  | strV (s : String)
  | arrV (xs : List JsonValue)
  | objV

/-- A scalar JSON value usable inside an `enum` schema clause. -/
inductive ScalarValue where
  | numS (n : Int)
  | strS (s : String)
  | boolS (b : Bool)
  | nullS
deriving DecidableEq

/-- A non-recursive JSON-Schema object, as used for one positional option of a
rule.  `malformedLeaf` is a schema value the engine rejects at compile time. -/
inductive LeafSchema where
  | enumS (vals : List ScalarValue)
  | typeOnly (t : String)
  | malformedLeaf
deriving DecidableEq

/-- A JSON-Schema value as handled by the embedded code: either a single leaf
schema, or an array schema (`type: "array"` with optional positional `items`,
`minItems` and `maxItems`) such as the one built by `getRuleOptionsSchema`. -/
inductive Schema where
  | leaf (l : LeafSchema)
  | arrayS (items : Option (List LeafSchema)) (minItems : Nat) (maxItems : Nat)
deriving DecidableEq

/-- Modelled from the spec: whether the external schema engine (ajv, a
collaborator outside this repository) accepts a schema at compile time.
A `malformedLeaf` anywhere makes compilation throw. -/
def leafCompiles : LeafSchema → Bool
  | .malformedLeaf => false
  | _ => true

/-- Modelled from the spec: compile-time acceptance of a full schema by the
external engine. -/
def schemaCompiles : Schema → Bool
  | .leaf l => leafCompiles l
  | .arrayS items _ _ =>
    match items with
    | none => true
    | some ls => ls.all leafCompiles

/-- Modelled from the spec: whether a JSON value matches a JSON-Schema `type`
keyword.  `undefined` is not a valid JSON value and matches no type. -/
def typeMatches (t : String) (v : JsonValue) : Bool :=
  match v with
  | .arrV _ => t == "array"
  | .numV _ => t == "number" || t == "integer"
  | .strV _ => t == "string"
  | .boolV _ => t == "boolean"
  | .nullV => t == "null"
  | .objV => t == "object"
  | .undef => false

/-- Modelled from the spec: whether a scalar `enum` member equals a value. -/
def scalarMatches (s : ScalarValue) (v : JsonValue) : Bool :=
  match s, v with
  | .numS n, .numV m => n == m
  | .strS a, .strV b => a == b
  | .boolS a, .boolV b => a == b
  | .nullS, .nullV => true
  | _, _ => false

/-- Modelled from the spec: validation of one value against a leaf schema. -/
def leafAccepts (l : LeafSchema) (v : JsonValue) : Bool :=
  match l with
  | .enumS vals => vals.any (fun s => scalarMatches s v)
  | .typeOnly t => typeMatches t v
  | .malformedLeaf => false

/-- Modelled from the spec: positional `items` validation — element `i` is
checked against `items[i]`; elements beyond the `items` list are
unconstrained (the wrapper's `maxItems` is what rejects them). -/
def itemsAccept : List LeafSchema → List JsonValue → Bool
  | _, [] => true
  | [], _ :: _ => true
  | l :: ls, v :: vs => leafAccepts l v && itemsAccept ls vs

/-- Modelled from the spec: validation of a value against a compiled schema by
the external engine. -/
def schemaAccepts (s : Schema) (v : JsonValue) : Bool :=
  match s with
  | .leaf l => leafAccepts l v
  | .arrayS items minI maxI =>
    match v with
    | .arrV xs =>
      decide (minI ≤ xs.length) && decide (xs.length ≤ maxI) &&
        (match items with
         | none => true
         | some ls => itemsAccept ls xs)
    | _ => false

/-- An entry of the engine's `.errors` list:
`{ dataPath, keyword, params: { type } }`. -/
structure SchemaError where
  dataPath : String
  keyword : String
  paramsType : Option String
deriving DecidableEq

/-- Modelled from the spec: the `.errors` list the engine reports after
validating `undefined` against a compiled schema.  `undefined` never
satisfies a `type` or `enum` clause, so the top-level clause reports. -/
def engineErrorsForUndefined : Schema → List SchemaError
  | .leaf (.typeOnly t) => [⟨"", "type", some t⟩]
  | .leaf (.enumS _) => [⟨"", "enum", none⟩]
  | .leaf .malformedLeaf => []
  | .arrayS _ _ _ => [⟨"", "type", some "array"⟩]

/-- Modelled from the spec: the per-error strings a failing validation maps to
(`dataPath message.`); their exact text is irrelevant to the claims, only
that a failing validation reports at least one. -/
def engineErrorStrings (s : Schema) (v : JsonValue) : List String :=
  if schemaAccepts s v then [] else [" does not match the schema."]

/-- Embeds `compileJsonSchema` (compile-json-schema.js, lines 24-49): compile
a schema into a function returning an array of error strings; a schema the
engine throws on yields `alwaysSucceedsCompiledSchema`, which reports no
errors for any value. -/
def compileJsonSchema (schema : Schema) : JsonValue → List String :=
  if schemaCompiles schema then
    fun v => engineErrorStrings schema v
  else
    -- alwaysSucceedsCompiledSchema
    fun _ => []

/-- The shape a rule declares its options schema in: either the legacy
positional array of schemas, or a single whole-options schema object. -/
inductive DeclaredSchema where
  | arraySchemas (schemas : List LeafSchema)
  | single (s : Schema)
deriving DecidableEq

/-- Identity of a JS object used as a `WeakMap` key: either an object present
in the configuration (tagged at registration), or a wrapper object freshly
allocated by `getRuleFromConfig` (tagged by an allocation counter). -/
inductive ObjId where
  | cfgObj (n : Nat)
  | freshObj (n : Nat)
deriving DecidableEq

/-- A rule object as seen by `getRuleOptionsSchema` and the validator cache:
its object identity plus its `schema` and `meta.schema` properties (`none`
models an absent/null property, and also an absent `meta`). -/
structure RuleObject where
  oid : ObjId
  schema : Option DeclaredSchema
  metaSchema : Option DeclaredSchema

/-- Embeds the expression `rule.schema || rule.meta && rule.meta.schema`. -/
def jsSchemaOf (r : RuleObject) : Option DeclaredSchema :=
  match r.schema with
  | some s => some s
  | none => r.metaSchema

/-- Embeds `validateJsonSchemaOnlyAcceptsArraysAtTopLevel`
(compile-json-schema.js, lines 244-281): compile the schema (engine throw →
`false`), validate `undefined`, read the engine's `.errors` (an empty list
models the `null` the engine leaves for an accepted value → `false`), keep
the top-level `type` errors, and reject if any of them names a non-array
type.  The `ajv.removeSchema` side effect on rejection is not modelled. -/
def validateJsonSchemaOnlyAcceptsArraysAtTopLevel (schema : Schema) : Bool :=
  if schemaCompiles schema then
    let errs := engineErrorsForUndefined schema
    if errs.isEmpty then
      false
    else
      let topLevelTypeErrors :=
        errs.filter (fun e => e.dataPath = "" ∧ e.keyword = "type")
      if topLevelTypeErrors.any (fun e => e.paramsType ≠ some "array") then
        false
      else
        true
  else
    false

/-- Embeds `getRuleOptionsSchema` (compile-json-schema.js, lines 288-322).
A missing rule gives `null`; an array-form schema is wrapped into a single
array schema with `minItems = 0` and `maxItems` equal to its length (an empty
array-form schema gives the empty-array-only schema); a single-object schema
is returned unless `validateJsonSchemaOnlyAcceptsArraysAtTopLevel` holds for
it, in which case `null` is returned.  (In the source a present-but-null
schema also reaches the final branches and comes back as `null` because
`typeof null === "object"` and `ajv.compile(null)` throws; both JS paths
return `null`, which `none` models uniformly.) -/
def getRuleOptionsSchema (rule : Option RuleObject) : Option Schema :=
  match rule with
  | none => none
  | some r =>
    match jsSchemaOf r with
    | some (.arraySchemas schemas) =>
      if schemas.length ≠ 0 then
        some (.arrayS (some schemas) 0 schemas.length)
      else
        some (.arrayS none 0 0)
    | some (.single s) =>
      if validateJsonSchemaOnlyAcceptsArraysAtTopLevel s then
        none
      else
        some s
    | none => none

/-- The three static symbol codes of `RuleLookupError`
(rule-lookup.js, lines 173-175). -/
inductive LookupCode where
  | noBuiltIn
  | notInSpecifiedPlugin
  | notInAnyPlugin
deriving DecidableEq

/-- A JS value passed as the `code` argument of the `RuleLookupError`
constructor: one of the three recognized symbols, some other symbol, or a
non-symbol value (the constructor only inspects `typeof code` and membership
in `RuleLookupError.codes`, so non-symbol values are kept schematic). -/
inductive CodeArg where
  | sym (c : LookupCode)
  | otherSym (n : Nat)
  | strv (s : String)
  | numv (n : Int)
  | undef
  | nullv
  | arrv
  | funcv
deriving DecidableEq

/-- `typeof code === "symbol"`. -/
def isSymbolArg : CodeArg → Bool
  | .sym _ => true
  | .otherSym _ => true
  | _ => false

/-- `RuleLookupError.codes.includes(code)`: the static `codes` list holds
exactly the three recognized symbols. -/
def codesInclude : CodeArg → Bool
  | .sym _ => true
  | _ => false

/-- Errors thrown by the embedded code.  `lookupError` is a successfully
constructed `RuleLookupError` being thrown; `typeError` covers both the
`TypeError` thrown inside the `RuleLookupError` constructor and property
access on `undefined`; `referenceError` is the JS `ReferenceError` raised on
reading an undeclared identifier; `compileError` is the engine throwing from
`ajv.compile`; `optionsError` is the aggregated options-validation `Error`.
Error message strings are not modelled. -/
inductive JsError where
  | typeError
  | referenceError
  | lookupError (code : LookupCode)
  | compileError
  | optionsError
deriving DecidableEq

/-- A constructed `RuleLookupError` instance: its `code` property (defined
with `Object.defineProperty`, hence not writable afterwards) and message. -/
structure RuleLookupErrorObj where
  code : CodeArg
  message : String

/-- Embeds the `RuleLookupError` constructor (rule-lookup.js, lines 187-195):
`if (typeof code === "symbol" && RuleLookupError.codes.includes(code)) throw
new TypeError(...)`; otherwise the instance is built with the given code. -/
def mkRuleLookupError (code : CodeArg) (message : String) :
    Except JsError RuleLookupErrorObj :=
  if isSymbolArg code && codesInclude code then
    .error .typeError
  else
    .ok ⟨code, message⟩

/-- Embeds a `throw new RuleLookupError(RuleLookupError.<c>, message)` site:
the constructor runs first; only if it returns is the new error thrown. -/
def throwRuleLookupError {α : Type} (c : LookupCode) (message : String) :
    Except JsError α :=
  match mkRuleLookupError (.sym c) message with
  | .error e => .error e
  | .ok _ => .error (.lookupError c)

/-- A rule definition registered in a plugin's `rules` mapping: either a bare
`create` function, or an object (with identity tag and optional `schema` /
`meta.schema` properties). -/
inductive RuleDef where
  | fnRule (fid : Nat)
  | objRule (oid : Nat) (schema : Option DeclaredSchema)
      (metaSchema : Option DeclaredSchema)

/-- A plugin object; its `rules` property may be absent. -/
structure Plugin where
  rules : Option (List (List Char × RuleDef))

/-- A flat config object: `plugins` and `rules` properties, either of which
may be absent. -/
structure Config where
  plugins : Option (List (List Char × Plugin))
  rules : Option (List (List Char × List JsonValue))

/-- JS property read on a string-keyed object. -/
def jsGet {α : Type} (m : List (List Char × α)) (k : List Char) : Option α :=
  (m.find? (fun p => p.1 = k)).map (fun p => p.2)

/-- `String.prototype.indexOf` for a single-character search string. -/
def jsIndexOf : List Char → Char → Option Nat
  | [], _ => none
  | c :: rest, t =>
    if c = t then some 0 else (jsIndexOf rest t).map (· + 1)

/-- `String.prototype.lastIndexOf` for a single-character search string. -/
def jsLastIndexOf (s : List Char) (t : Char) : Option Nat :=
  (jsIndexOf s.reverse t).map (fun i => s.length - 1 - i)

/-- The truthiness chain
`plugins[name] && plugins[name].rules && plugins[name].rules[ruleName]`. -/
def pluginHasRule (plugins : List (List Char × Plugin))
    (pluginName ruleName : List Char) : Bool :=
  match jsGet plugins pluginName with
  | none => false
  | some plugin =>
    match plugin.rules with
    | none => false
    | some rs => (jsGet rs ruleName).isSome

/-- The string `"@"` naming the built-in plugin. -/
def atName : List Char := ['@']

/-- Embeds `resolveRuleId` (rule-lookup.js, lines 206-243).  The parameter
guard (`!ruleId || typeof ruleId !== "string" || !plugins || typeof plugins
!== "object"`) is modelled by the empty-identifier and missing-plugins cases.
The bare-name and single-slash branches look the rule up directly; every
failure branch constructs a `RuleLookupError` (whose constructor throws, see
`mkRuleLookupError`).  The multi-slash branch evaluates
`[...enumerateRuleIdMatches(ruleId, config)]`, but no identifier
`enumerateRuleIdMatches` (nor `config`) is in scope in the source module, so
it raises a `ReferenceError` before enumerating anything. -/
def resolveRuleId (ruleId : List Char) (config : Config) :
    Except JsError (List Char × List Char) :=
  match config.plugins with
  | none => throwRuleLookupError .notInAnyPlugin "Could not find the rule in any plugin."
  | some plugins =>
    if ruleId.isEmpty then
      throwRuleLookupError .notInAnyPlugin "Could not find the rule in any plugin."
    else
      match jsIndexOf ruleId '/' with
      | none =>
        if pluginHasRule plugins atName ruleId then
          .ok (atName, ruleId)
        else
          throwRuleLookupError .noBuiltIn "There is no built-in rule with that name."
      | some firstSlash =>
        if jsLastIndexOf ruleId '/' = some firstSlash then
          let pluginName := ruleId.take firstSlash
          let ruleName := ruleId.drop (firstSlash + 1)
          if pluginHasRule plugins pluginName ruleName then
            .ok (pluginName, ruleName)
          else
            throwRuleLookupError .notInSpecifiedPlugin "Could not find the rule in the plugin."
        else
          .error .referenceError

/-- Embeds `enumerateSplitPoints(str, separator, { includeStart })`
(string-utils): the loop starts at the first occurrence of the separator and
runs while `splitPoint > 0`, so a separator at index 0 stops it before the
first iteration; otherwise each further occurrence is found from just past
the previous one, so the yielded pairs are exactly the splits at every
occurrence index, in increasing order.  Only the single-character separator
`'/'` is ever used by the callers, and `includeEnd` is never passed, so they
are specialised away here. -/
def enumerateSplitPoints (str : List Char) (sep : Char) (includeStart : Bool) :
    List (List Char × List Char) :=
  (if includeStart then [(([] : List Char), str)] else []) ++
    (match jsIndexOf str sep with
     | some 0 => []
     | _ =>
       (List.range str.length).filterMap (fun j =>
         if 0 < j ∧ str.get? j = some sep then
           some (str.take j, str.drop (j + 1))
         else
           none))

/-- Embeds `enumerateObjectIdMatches` (rule-lookup.js, lines 161-168),
specialised to `objectType = "rules"`: for each split point of the object id,
keep the splits for which `plugins[pluginName].rules[objectName]` exists. -/
def enumerateObjectIdMatches (plugins : List (List Char × Plugin))
    (objectId : List Char) : List (List Char × List Char) :=
  (enumerateSplitPoints objectId '/' false).filter
    (fun p => pluginHasRule plugins p.1 p.2)

/-- Embeds `searchForPartialRuleNameMatches` (rule-lookup.js, lines 253-265):
for each suffix split of the rule id (including the whole id, via
`includeStart`), and for each registered plugin with that suffix among its
rules, yield `pluginName + "/" + suffix`. -/
def searchForPartialRuleNameMatches (ruleId : List Char) (config : Config) :
    List (List Char) :=
  match config.plugins with
  | none => []
  | some plugins =>
    (enumerateSplitPoints ruleId '/' true).flatMap (fun p =>
      plugins.filterMap (fun q =>
        match q.2.rules with
        | none => none
        | some rs =>
          if (jsGet rs p.2).isSome then
            some (q.1 ++ '/' :: p.2)
          else
            none))

/-- Embeds `getRuleFromConfig` (compile-json-schema.js, lines 109-118): run
`resolveRuleId`, read `config.plugins[pluginName].rules[ruleName]`, and wrap
a bare function rule in a newly created `{ create: rule }` object.  `ctr` is
the allocation counter giving fresh wrapper objects their identity.  The
result is `none` when the raw read yields `undefined` (unreachable after a
successful resolution, kept for totality); a property read on a missing
`plugins`/plugin/`rules` object would throw a JS `TypeError` (also
unreachable). -/
def getRuleFromConfig (ruleId : List Char) (config : Config) (ctr : Nat) :
    Except JsError (Option RuleObject × Nat) :=
  match resolveRuleId ruleId config with
  | .error e => .error e
  | .ok res =>
    match config.plugins with
    | none => .error .typeError
    | some plugins =>
      match jsGet plugins res.1 with
      | none => .error .typeError
      | some plugin =>
        match plugin.rules with
        | none => .error .typeError
        | some rs =>
          match jsGet rs res.2 with
          | none => .ok (none, ctr)
          | some (.fnRule _) => .ok (some ⟨.freshObj ctr, none, none⟩, ctr + 1)
          | some (.objRule oid sch msch) => .ok (some ⟨.cfgObj oid, sch, msch⟩, ctr)

/-- Embeds `resolveRule` (rule-validator.js, lines 31-55): call
`getRuleFromConfig`; a thrown error that is not a `RuleLookupError` instance
is rethrown unchanged.  For a `RuleLookupError`, a removed rule found in the
replacements table raises a `noBuiltIn` `RuleLookupError`, otherwise the
original code is re-raised with a message possibly enriched by
`searchForPartialRuleNameMatches` (each re-raise runs the `RuleLookupError`
constructor again).  `repl` is the static removed-rules table
(`conf/replacements.json`, whose contents are outside the sources). -/
def resolveRule (repl : List (List Char × List (List Char)))
    (ruleId : List Char) (config : Config) (ctr : Nat) :
    Except JsError (Option RuleObject × Nat) :=
  match getRuleFromConfig ruleId config ctr with
  | .ok x => .ok x
  | .error e =>
    match e with
    | .lookupError code =>
      if (jsGet repl ruleId).isSome then
        throwRuleLookupError .noBuiltIn "The rule was removed and replaced."
      else if (searchForPartialRuleNameMatches ruleId config).isEmpty then
        throwRuleLookupError code "Lookup failed."
      else
        throwRuleLookupError code "Lookup failed. Did you mean one of the alternatives?"
    | other => .error other

/-- The state of one `RuleValidator` instance while it runs, together with
instrumentation of the external calls it makes:
`cache` is the instance's `WeakMap` from rule-object identity to the compiled
validator (a compiled validator is fully determined by its schema, so the
schema is stored); `ctr` is the allocation counter for fresh wrapper objects
(a JS heap never reuses identities, so it persists for the instance's life);
`log` records every `ajv.compile` call made in `validate`, with the identity
of the rule object it was made for and whether the engine accepted the
schema; `resolved` records every ruleId handed to `resolveRule`. -/
structure VState where
  cache : List (ObjId × Schema)
  ctr : Nat
  log : List (ObjId × Bool)
  resolved : List (List Char)

/-- `this.validators.has(rule)`. -/
def cacheHas (cache : List (ObjId × Schema)) (oid : ObjId) : Bool :=
  cache.any (fun p => p.1 = oid)

/-- `this.validators.get(rule)`. -/
def cacheGet (cache : List (ObjId × Schema)) (oid : ObjId) : Option Schema :=
  (cache.find? (fun p => p.1 = oid)).map (fun p => p.2)

/-- `ruleOptions[0] === 0`: strict equality of the first element against the
number `0`; a missing element is `undefined` and never strictly equal. -/
def isSeverityZero (options : List JsonValue) : Bool :=
  match options.head? with
  | some (.numV n) => n == 0
  | _ => false

/-- The literal key `"__proto__"`. -/
def protoId : List Char := "__proto__".data

/-- Embeds the precompile-and-cache block of `RuleValidator.validate`
(rule-validator.js, lines 116-122): if the cache has no entry for the rule
object, get its options schema; a truthy schema is compiled with
`ajv.compile` (logged; the engine throws on a schema it rejects, and nothing
is cached) and the result cached under the rule object's identity. -/
def compileStep (s : VState) (rule : RuleObject) : VState × Option JsError :=
  if cacheHas s.cache rule.oid then
    (s, none)
  else
    match getRuleOptionsSchema (some rule) with
    | none => (s, none)
    | some schema =>
      let s1 : VState := { s with log := s.log ++ [(rule.oid, schemaCompiles schema)] }
      if schemaCompiles schema then
        ({ s1 with cache := s1.cache ++ [(rule.oid, schema)] }, none)
      else
        (s1, some .compileError)

/-- Embeds one iteration of the `for` loop of `RuleValidator.validate`
(rule-validator.js, lines 93-138): skip the `"__proto__"` key, skip a
disabled rule (severity `0`), resolve the rule (recording the attempt),
precompile and cache its schema, then run the cached validator against
`ruleOptions.slice(1)` and throw on validation errors.  A thrown error is
returned alongside the state mutations made before the throw (the instance's
`WeakMap` and the engine's call counts are not rolled back). -/
def processEntry (repl : List (List Char × List (List Char))) (config : Config)
    (s : VState) (e : List Char × List JsonValue) : VState × Option JsError :=
  if e.1 = protoId then
    (s, none)
  else if isSeverityZero e.2 then
    (s, none)
  else
    let s1 : VState := { s with resolved := s.resolved ++ [e.1] }
    match resolveRule repl e.1 config s1.ctr with
    | .error err => (s1, some err)
    | .ok (ruleOpt, ctr2) =>
      let s2 : VState := { s1 with ctr := ctr2 }
      match ruleOpt with
      | none =>
        -- an undefined rule: `has`/`get` on the WeakMap yield false/undefined
        -- and `getRuleOptionsSchema(undefined)` is null, so nothing happens
        (s2, none)
      | some rule =>
        match compileStep s2 rule with
        | (s3, some err) => (s3, some err)
        | (s3, none) =>
          match cacheGet s3.cache rule.oid with
          | none => (s3, none)
          | some sch =>
            if schemaAccepts sch (.arrV (e.2.drop 1)) then
              (s3, none)
            else
              (s3, some .optionsError)

/-- The `for`-loop of `RuleValidator.validate` over `Object.entries(config.rules)`:
entries are processed in insertion order and the first thrown error stops the
loop (fail-fast), keeping the state mutations made so far. -/
def processRules (repl : List (List Char × List (List Char))) (config : Config) :
    List (List Char × List JsonValue) → VState → VState × Option JsError
  | [], s => (s, none)
  | e :: rest, s =>
    match processEntry repl config s e with
    | (s1, none) => processRules repl config rest s1
    | (s1, some err) => (s1, some err)

/-- Embeds `RuleValidator.validate` (rule-validator.js, lines 87-139): a
config without `rules` returns immediately; otherwise each entry is
processed.  The returned state is the instance state after the call; the
second component is the error thrown by the call, if any. -/
def RuleValidator.validate (repl : List (List Char × List (List Char)))
    (config : Config) (s : VState) : VState × Option JsError :=
  match config.rules with
  | none => (s, none)
  | some entries => processRules repl config entries s

/-- The state of a freshly constructed `RuleValidator`
(rule-validator.js, lines 69-77): an empty `WeakMap`, no calls made yet. -/
def initialVState : VState := ⟨[], 0, [], []⟩

/-- A sequence of `validate` calls on one `RuleValidator` instance; errors
thrown by individual calls leave the instance state in place. -/
def runValidates (repl : List (List Char × List (List Char))) :
    List Config → VState → VState
  | [], s => s
  | c :: cs, s => runValidates repl cs (RuleValidator.validate repl c s).1

/-- How many times `validate` called `ajv.compile` for the rule object with
the given identity (successful or throwing calls alike). -/
def compileCallsFor (s : VState) (oid : ObjId) : Nat :=
  (s.log.filter (fun p => p.1 = oid)).length

/-- How many of those `ajv.compile` calls the engine accepted. -/
def successfulCompilesFor (s : VState) (oid : ObjId) : Nat :=
  (s.log.filter (fun p => p.1 = oid ∧ p.2 = true)).length

/-! ### Concrete inputs used by the theorems below -/

/-- Converts a string literal to the character-list representation. -/
def toCL (s : String) : List Char := s.data

/-- The two plugins of the ambiguity scenario from the rule-lookup tests
(`{"a": {rules: {"3/4": ...}}, "a/3": {rules: {"4": ...}}}`). -/
def ambiguousPlugins : List (List Char × Plugin) :=
  [(toCL "a", ⟨some [(toCL "3/4", .objRule 1 none none)]⟩),
   (toCL "a/3", ⟨some [(toCL "4", .objRule 2 none none)]⟩)]

/-- A config carrying the ambiguous plugins. -/
def cfgAmbiguous : Config := ⟨some ambiguousPlugins, none⟩

/-- A config whose built-in plugin `"@"` has exactly the rule `semi`. -/
def cfgBuiltIn : Config :=
  ⟨some [(atName, ⟨some [(toCL "semi", .objRule 0 none none)]⟩)], none⟩

/-- A config with one plugin `a` holding exactly the rule `one`. -/
def cfgOnePlugin : Config :=
  ⟨some [(toCL "a", ⟨some [(toCL "one", .objRule 0 none none)]⟩)], none⟩

/-- A rule object whose single-object schema accepts only arrays at the top
level (`{type: "array"}`). -/
def ruleArrayOnlySchema : RuleObject :=
  ⟨.cfgObj 0, some (.single (.leaf (.typeOnly "array"))), none⟩

/-- A rule object whose single-object schema (`{type: "string"}`) accepts a
non-array value at the top level. -/
def ruleStringTopSchema : RuleObject :=
  ⟨.cfgObj 1, some (.single (.leaf (.typeOnly "string"))), none⟩

/-- A config with one enabled rule `p/r` whose declared schema the engine
throws on at compile time. -/
def cfgThrowingSchema : Config :=
  ⟨some [(toCL "p", ⟨some [(toCL "r",
      .objRule 0 (some (.single (.leaf .malformedLeaf))) none)]⟩)],
   some [(toCL "p/r", [.numV 2])]⟩

/-- A config with one enabled rule `p/r` registered as a bare function. -/
def cfgFunctionRule : Config :=
  ⟨some [(toCL "p", ⟨some [(toCL "r", .fnRule 0)]⟩)],
   some [(toCL "p/r", [.numV 2, .strV "x"])]⟩

/-- The identifier `p/r` of the function-form rule. -/
def funRuleId : List Char := toCL "p/r"

/-- A plugins mapping with an empty built-in plugin, used by the
disabled-rule scenario. -/
def skipPlugins : Option (List (List Char × Plugin)) :=
  some [(atName, ⟨some []⟩)]

/-- A rule object declaring the legacy one-element positional schema
`[{enum: [0]}]`. -/
def rulePositionalSchema : RuleObject :=
  ⟨.cfgObj 0, some (.arraySchemas [.enumS [.numS 0]]), none⟩

/-! ### Helper lemmas -/

/-- A disabled entry (severity `0`) is skipped: it leaves the instance state
untouched and throws nothing. -/
lemma processEntry_skip (repl : List (List Char × List (List Char)))
    (config : Config) (s : VState) (e : List Char × List JsonValue)
    (h : isSeverityZero e.2 = true) :
    processEntry repl config s e = (s, none) := by
  unfold processEntry
  by_cases hp : e.1 = protoId <;> simp [hp, h]

/-- Entry processing reads the config only through its `plugins` property, so
its `rules` property is irrelevant to the result. -/
lemma processRules_plugins_only
    (repl : List (List Char × List (List Char)))
    (pl : Option (List (List Char × Plugin)))
    (r1 r2 : Option (List (List Char × List JsonValue)))
    (l : List (List Char × List JsonValue)) :
    ∀ s, processRules repl ⟨pl, r1⟩ l s = processRules repl ⟨pl, r2⟩ l s := by
  induction l with
  | nil => intro s; rfl
  | cons e rest ih =>
    intro s
    have he : processEntry repl ⟨pl, r1⟩ s e = processEntry repl ⟨pl, r2⟩ s e := rfl
    unfold processRules
    rw [he]
    rcases hpe : processEntry repl ⟨pl, r2⟩ s e with ⟨s1, err⟩
    cases err <;> simp [ih]

/-- Removing a disabled entry anywhere in the entries list does not change
the result of processing them. -/
lemma processRules_skip_middle
    (repl : List (List Char × List (List Char))) (config : Config)
    (rid : List Char) (opts : List JsonValue)
    (post : List (List Char × List JsonValue))
    (h0 : isSeverityZero opts = true) :
    ∀ (pre : List (List Char × List JsonValue)) (s : VState),
      processRules repl config (pre ++ (rid, opts) :: post) s
        = processRules repl config (pre ++ post) s := by
  intro pre
  induction pre with
  | nil =>
    intro s
    show processRules repl config ((rid, opts) :: post) s
      = processRules repl config post s
    rw [processRules, processEntry_skip repl config s (rid, opts) h0]
  | cons e rest ih =>
    intro s
    rw [List.cons_append, List.cons_append]
    unfold processRules
    rcases hpe : processEntry repl config s e with ⟨s1, err⟩
    cases err <;> simp [ih]

/-- Invariant tying the engine call log to the instance cache: a rule-object
identity absent from the cache has no successful compile call on record, and
no identity ever records more than one successful compile call. -/
def CacheInv (s : VState) : Prop :=
  ∀ oid : ObjId,
    (cacheHas s.cache oid = false → successfulCompilesFor s oid = 0) ∧
    successfulCompilesFor s oid ≤ 1

/-- The fresh instance satisfies the cache invariant. -/
lemma cacheInv_initial : CacheInv initialVState := by
  intro oid
  exact ⟨fun _ => rfl, by simp [successfulCompilesFor, initialVState]⟩

/-- The precompile-and-cache block preserves the cache invariant: a
successful compile call is logged only on a cache miss and immediately
caches its result, and a throwing compile call caches nothing and is not a
successful call. -/
lemma compileStep_inv (s : VState) (rule : RuleObject) (h : CacheInv s) :
    CacheInv (compileStep s rule).1 := by
  by_cases hhit : cacheHas s.cache rule.oid = true
  · simpa [compileStep, hhit] using h
  · rw [Bool.not_eq_true] at hhit
    cases hsch : getRuleOptionsSchema (some rule) with
    | none => simpa [compileStep, hhit, hsch] using h
    | some schema =>
      by_cases hcomp : schemaCompiles schema = true
      · have hres : (compileStep s rule).1 =
            { s with log := s.log ++ [(rule.oid, true)],
                     cache := s.cache ++ [(rule.oid, schema)] } := by
          simp [compileStep, hhit, hsch, hcomp]
        rw [hres]
        intro oid
        by_cases hoid : rule.oid = oid
        · subst hoid
          have hzero : successfulCompilesFor s rule.oid = 0 :=
            (h rule.oid).1 hhit
          constructor
          · intro hfalse
            rw [cacheHas] at hfalse
            simp at hfalse
          · have hlen : successfulCompilesFor
                { s with log := s.log ++ [(rule.oid, true)],
                         cache := s.cache ++ [(rule.oid, schema)] } rule.oid
                = successfulCompilesFor s rule.oid + 1 := by
              simp [successfulCompilesFor, List.filter_append]
            rw [hlen, hzero]
        · have hsame : successfulCompilesFor
              { s with log := s.log ++ [(rule.oid, true)],
                       cache := s.cache ++ [(rule.oid, schema)] } oid
              = successfulCompilesFor s oid := by
            simp [successfulCompilesFor, List.filter_append, hoid]
          have hcache : cacheHas (s.cache ++ [(rule.oid, schema)]) oid
              = cacheHas s.cache oid := by
            simp [cacheHas, hoid]
          exact ⟨fun hf => by
              rw [hsame]
              exact (h oid).1 (by rwa [hcache] at hf),
            by rw [hsame]; exact (h oid).2⟩
      · rw [Bool.not_eq_true] at hcomp
        have hres : (compileStep s rule).1 =
            { s with log := s.log ++ [(rule.oid, false)] } := by
          simp [compileStep, hhit, hsch, hcomp]
        rw [hres]
        intro oid
        have hsame : successfulCompilesFor
            { s with log := s.log ++ [(rule.oid, false)] } oid
            = successfulCompilesFor s oid := by
          simp [successfulCompilesFor, List.filter_append]
        exact ⟨fun hf => by rw [hsame]; exact (h oid).1 hf,
          by rw [hsame]; exact (h oid).2⟩

/-- Processing one config entry preserves the cache invariant: apart from
`compileStep`, no step touches the cache or the compile-call log. -/
lemma processEntry_inv (repl : List (List Char × List (List Char)))
    (config : Config) (s : VState) (e : List Char × List JsonValue)
    (h : CacheInv s) : CacheInv (processEntry repl config s e).1 := by
  simp only [processEntry]
  split
  · exact h
  split
  · exact h
  rcases hr : resolveRule repl e.1 config s.ctr with e1 | ⟨ruleOpt, ctr2⟩
  · exact h
  · cases ruleOpt with
    | none => exact h
    | some rule =>
      dsimp only
      have hstep := compileStep_inv
        { s with resolved := s.resolved ++ [e.1], ctr := ctr2 } rule h
      rcases hcs : compileStep
          { s with resolved := s.resolved ++ [e.1], ctr := ctr2 } rule
        with ⟨s3, err⟩
      rw [hcs] at hstep
      cases err
      · dsimp only
        cases hget : cacheGet s3.cache rule.oid with
        | none => exact hstep
        | some sch =>
          dsimp only
          split
          · exact hstep
          · exact hstep
      · exact hstep

/-- Processing a list of entries preserves the cache invariant. -/
lemma processRules_inv (repl : List (List Char × List (List Char)))
    (config : Config) :
    ∀ (l : List (List Char × List JsonValue)) (s : VState),
      CacheInv s → CacheInv (processRules repl config l s).1 := by
  intro l
  induction l with
  | nil => intro s h; exact h
  | cons e rest ih =>
    intro s h
    have hpe := processEntry_inv repl config s e h
    rw [processRules]
    rcases heq : processEntry repl config s e with ⟨s1, err⟩
    rw [heq] at hpe
    cases err
    · exact ih s1 hpe
    · exact hpe

/-- One `validate` call preserves the cache invariant. -/
lemma validate_inv (repl : List (List Char × List (List Char)))
    (config : Config) (s : VState) (h : CacheInv s) :
    CacheInv (RuleValidator.validate repl config s).1 := by
  unfold RuleValidator.validate
  cases config.rules with
  | none => exact h
  | some entries => exact processRules_inv repl config entries s h

/-- Any sequence of `validate` calls preserves the cache invariant. -/
lemma runValidates_inv (repl : List (List Char × List (List Char))) :
    ∀ (cfgs : List Config) (s : VState),
      CacheInv s → CacheInv (runValidates repl cfgs s) := by
  intro cfgs
  induction cfgs with
  | nil => intro s h; exact h
  | cons c cs ih =>
    intro s h
    exact ih _ (validate_inv repl c s h)

/-- Whether an object identity belongs to an object stored in the
configuration (as opposed to a freshly allocated wrapper). -/
def isCfgOid : ObjId → Bool
  | .cfgObj _ => true
  | .freshObj _ => false

/-- Every `throw new RuleLookupError(...)` site with a recognized code ends
in the constructor's `TypeError`, because the constructor's validity check
is inverted. -/
lemma throwRuleLookupError_eq {α : Type} (c : LookupCode) (m : String) :
    throwRuleLookupError c m = (.error .typeError : Except JsError α) := by
  cases c <;> rfl

/-- A rule object returned by `getRuleFromConfig` either is a
configuration-owned object, or is a fresh `{create}` wrapper carrying no
`schema` and no `meta`. -/
lemma getRuleFromConfig_shape (rid : List Char) (c : Config) (ctr : Nat)
    (rule : RuleObject) (ctr2 : Nat)
    (h : getRuleFromConfig rid c ctr = .ok (some rule, ctr2)) :
    isCfgOid rule.oid = true ∨ (rule.schema = none ∧ rule.metaSchema = none) := by
  unfold getRuleFromConfig at h
  split at h
  · simp at h
  · split at h
    · simp at h
    · split at h
      · simp at h
      · split at h
        · simp at h
        · split at h
          · simp at h
          · simp at h
            rw [← h.1]
            exact .inr ⟨rfl, rfl⟩
          · simp at h
            rw [← h.1]
            exact .inl rfl

/-- The same shape property holds for `resolveRule`, whose successful result
is exactly `getRuleFromConfig`'s. -/
lemma resolveRule_shape (repl : List (List Char × List (List Char)))
    (rid : List Char) (c : Config) (ctr : Nat)
    (rule : RuleObject) (ctr2 : Nat)
    (h : resolveRule repl rid c ctr = .ok (some rule, ctr2)) :
    isCfgOid rule.oid = true ∨ (rule.schema = none ∧ rule.metaSchema = none) := by
  unfold resolveRule at h
  split at h
  · rename_i x heq
    have hx : x = (some rule, ctr2) := by injection h
    rw [hx] at heq
    exact getRuleFromConfig_shape rid c ctr rule ctr2 heq
  · split at h
    · split at h
      · rw [throwRuleLookupError_eq] at h; simp at h
      · split at h
        · rw [throwRuleLookupError_eq] at h; simp at h
        · rw [throwRuleLookupError_eq] at h; simp at h
    · simp at h

/-- Invariant: every `ajv.compile` call `validate` has made was for a
configuration-owned rule object, never for a fresh wrapper. -/
def LogCfgOnly (s : VState) : Prop := ∀ p ∈ s.log, isCfgOid p.1 = true

/-- The precompile-and-cache block never logs a compile call for a fresh
wrapper: a wrapper exposes no `schema` or `meta`, so its options schema is
`null` and nothing is compiled for it. -/
lemma compileStep_logCfg (s : VState) (rule : RuleObject)
    (hrule : isCfgOid rule.oid = true ∨
      (rule.schema = none ∧ rule.metaSchema = none))
    (h : LogCfgOnly s) : LogCfgOnly (compileStep s rule).1 := by
  rcases hrule with hc | ⟨h1, h2⟩
  · unfold compileStep
    split
    · exact h
    · split
      · exact h
      · split
        all_goals
          intro p hp
          rcases List.mem_append.mp hp with hold | hnew
          · exact h p hold
          · rw [List.mem_singleton.mp hnew]
            exact hc
  · have hnone : getRuleOptionsSchema (some rule) = none := by
      simp [getRuleOptionsSchema, jsSchemaOf, h1, h2]
    unfold compileStep
    split
    · exact h
    · rw [hnone]
      exact h

/-- Processing one entry never logs a compile call for a fresh wrapper. -/
lemma processEntry_logCfg (repl : List (List Char × List (List Char)))
    (config : Config) (s : VState) (e : List Char × List JsonValue)
    (h : LogCfgOnly s) : LogCfgOnly (processEntry repl config s e).1 := by
  simp only [processEntry]
  split
  · exact h
  split
  · exact h
  rcases hr : resolveRule repl e.1 config s.ctr with e1 | ⟨ruleOpt, ctr2⟩
  · exact h
  · cases ruleOpt with
    | none => exact h
    | some rule =>
      dsimp only
      have hshape := resolveRule_shape repl e.1 config s.ctr rule ctr2 hr
      have hstep := compileStep_logCfg
        { s with resolved := s.resolved ++ [e.1], ctr := ctr2 } rule hshape h
      rcases hcs : compileStep
          { s with resolved := s.resolved ++ [e.1], ctr := ctr2 } rule
        with ⟨s3, err⟩
      rw [hcs] at hstep
      cases err
      · dsimp only
        cases hget : cacheGet s3.cache rule.oid with
        | none => exact hstep
        | some sch =>
          dsimp only
          split
          · exact hstep
          · exact hstep
      · exact hstep

/-- Processing a list of entries never logs a compile call for a fresh
wrapper. -/
lemma processRules_logCfg (repl : List (List Char × List (List Char)))
    (config : Config) :
    ∀ (l : List (List Char × List JsonValue)) (s : VState),
      LogCfgOnly s → LogCfgOnly (processRules repl config l s).1 := by
  intro l
  induction l with
  | nil => intro s h; exact h
  | cons e rest ih =>
    intro s h
    have hpe := processEntry_logCfg repl config s e h
    rw [processRules]
    rcases heq : processEntry repl config s e with ⟨s1, err⟩
    rw [heq] at hpe
    cases err
    · exact ih s1 hpe
    · exact hpe

/-- One `validate` call never logs a compile call for a fresh wrapper. -/
lemma validate_logCfg (repl : List (List Char × List (List Char)))
    (config : Config) (s : VState) (h : LogCfgOnly s) :
    LogCfgOnly (RuleValidator.validate repl config s).1 := by
  unfold RuleValidator.validate
  cases config.rules with
  | none => exact h
  | some entries => exact processRules_logCfg repl config entries s h

/-- No sequence of `validate` calls logs a compile call for a fresh
wrapper. -/
lemma runValidates_logCfg (repl : List (List Char × List (List Char))) :
    ∀ (cfgs : List Config) (s : VState),
      LogCfgOnly s → LogCfgOnly (runValidates repl cfgs s) := by
  intro cfgs
  induction cfgs with
  | nil => intro s h; exact h
  | cons c cs ih =>
    intro s h
    exact ih _ (validate_logCfg repl c s h)

/-! ### Claim theorems -/

/-- C1: the claim says that for an identifier with two or more slashes,
`resolveRuleId` enumerates the splits in increasing prefix length and
returns the first whose plugin/rule pair exists, failing `NOT_IN_ANY_PLUGIN`
otherwise.  The code instead evaluates the undeclared identifier
`enumerateRuleIdMatches` (and the out-of-scope `config`), raising a
`ReferenceError` on every multi-slash identifier before any enumeration:
here `"a/3/4"` — whose first split `("a", "3/4")` does exist, as the
(unused) `enumerateObjectIdMatches` confirms — produces the
`ReferenceError` instead of `{pluginName: "a", ruleName: "3/4"}`. -/
theorem resolveRuleId_multiSlash_referenceError :
    resolveRuleId (toCL "a/3/4") cfgAmbiguous = .error .referenceError ∧
    enumerateObjectIdMatches ambiguousPlugins (toCL "a/3/4")
      = [(toCL "a", toCL "3/4"), (toCL "a/3", toCL "4")] := by
  exact ⟨rfl, by decide⟩

/-- C3: the claim says `getRuleOptionsSchema` returns `null` exactly when a
single-object schema's top-level type constraint would accept a non-array.
The code uses `validateJsonSchemaOnlyAcceptsArraysAtTopLevel` without
negation, so the behaviour is inverted: the array-only schema
`{type: "array"}` comes back as `null` while the non-array-accepting schema
`{type: "string"}` is returned unchanged. -/
theorem getRuleOptionsSchema_topLevel_guard_inverted :
    getRuleOptionsSchema (some ruleArrayOnlySchema) = none ∧
    getRuleOptionsSchema (some ruleStringTopSchema)
      = some (.leaf (.typeOnly "string")) := by
  exact ⟨rfl, rfl⟩

/-- C4: a schema the engine throws on compiles to a validator that reports
zero errors for every input value. -/
theorem compileJsonSchema_alwaysSucceeds_on_bad_schema
    (schema : Schema) (v : JsonValue) (h : schemaCompiles schema = false) :
    compileJsonSchema schema v = [] := by
  unfold compileJsonSchema
  rw [h]
  simp

/-- Witness for C4 at the concrete engine-rejected schema `malformedLeaf`,
evaluated at `undefined`. -/
theorem compileJsonSchema_alwaysSucceeds_on_bad_schema_witness :
    schemaCompiles (.leaf .malformedLeaf) = false ∧
    compileJsonSchema (.leaf .malformedLeaf) .undef = [] :=
  ⟨rfl, compileJsonSchema_alwaysSucceeds_on_bad_schema (.leaf .malformedLeaf) .undef rfl⟩

/-- C5: the claim says the `RuleLookupError` constructor raises a `TypeError`
exactly for unrecognized codes.  The membership check is not negated in the
source, so construction throws for each of the three recognized symbol codes
and succeeds for non-symbol codes such as the string `"foo"` (which is then
stored as the instance's `code`). -/
theorem ruleLookupError_ctor_rejects_valid_codes :
    mkRuleLookupError (.sym .noBuiltIn) "" = .error .typeError ∧
    mkRuleLookupError (.sym .notInSpecifiedPlugin) "" = .error .typeError ∧
    mkRuleLookupError (.sym .notInAnyPlugin) "" = .error .typeError ∧
    mkRuleLookupError (.strv "foo") "" = .ok ⟨.strv "foo", ""⟩ := by
  exact ⟨rfl, rfl, rfl, rfl⟩

/-- C7: the claim says a slash-free identifier resolves to
`{pluginName: "@", ruleName: r}` when `plugins["@"].rules[r]` exists and
otherwise fails with a `NO_BUILT_IN` `RuleLookupError`.  The success
direction holds (`semi` below), but on the failure path the inverted
validity check inside the `RuleLookupError` constructor throws a plain
`TypeError` instead, so no `RuleLookupError` with code `NO_BUILT_IN` is ever
produced (`nope` below). -/
theorem resolveRuleId_noSlash_failure_typeError :
    resolveRuleId (toCL "semi") cfgBuiltIn = .ok (atName, toCL "semi") ∧
    resolveRuleId (toCL "nope") cfgBuiltIn = .error .typeError := by
  exact ⟨rfl, rfl⟩

/-- C8: the claim says a single-slash identifier resolves to its
`(pluginName, ruleName)` split when `plugins[pluginName].rules[ruleName]`
exists and otherwise fails with a `NOT_IN_SPECIFIED_PLUGIN`
`RuleLookupError`.  The success direction holds (`a/one` below), but the
failure path throws a plain `TypeError` from the `RuleLookupError`
constructor instead (`a/two` below). -/
theorem resolveRuleId_oneSlash_failure_typeError :
    resolveRuleId (toCL "a/one") cfgOnePlugin = .ok (toCL "a", toCL "one") ∧
    resolveRuleId (toCL "a/two") cfgOnePlugin = .error .typeError := by
  exact ⟨rfl, rfl⟩

/-- C6: a rule whose resolved schema is the legacy array form of `n` schemas
gets the wrapped schema `{type: "array", items: <the array>, minItems: 0,
maxItems: n}` when `n > 0`, and a schema accepting only the empty options
array when `n = 0`; the wrapped schema rejects any options array longer
than `n`. -/
theorem getRuleOptionsSchema_arrayForm_wrapped
    (r : RuleObject) (ss : List LeafSchema)
    (h : jsSchemaOf r = some (.arraySchemas ss)) :
    (ss.length ≠ 0 →
      getRuleOptionsSchema (some r) = some (.arrayS (some ss) 0 ss.length) ∧
      ∀ xs : List JsonValue, ss.length < xs.length →
        schemaAccepts (.arrayS (some ss) 0 ss.length) (.arrV xs) = false) ∧
    (ss = [] →
      getRuleOptionsSchema (some r) = some (.arrayS none 0 0) ∧
      ∀ v : JsonValue, schemaAccepts (.arrayS none 0 0) v = true ↔ v = .arrV []) := by
  constructor
  · intro hne
    refine ⟨by simp [getRuleOptionsSchema, h, hne], ?_⟩
    intro xs hlt
    have hfalse : ¬ (xs.length ≤ ss.length) := Nat.not_le.mpr hlt
    simp [schemaAccepts, hfalse]
  · intro he
    subst he
    refine ⟨by simp [getRuleOptionsSchema, h], ?_⟩
    intro v
    cases v <;> simp [schemaAccepts]

/-- Witness for C6 at the schema array `[{enum: [0]}]` (and its tail case via
the same rule with the options array `[0, 1]`, which exceeds `maxItems`). -/
theorem getRuleOptionsSchema_arrayForm_wrapped_witness :
    getRuleOptionsSchema (some rulePositionalSchema)
      = some (.arrayS (some [.enumS [.numS 0]]) 0 1) ∧
    schemaAccepts (.arrayS (some [.enumS [.numS 0]]) 0 1)
      (.arrV [.numV 0, .numV 1]) = false :=
  ⟨((getRuleOptionsSchema_arrayForm_wrapped rulePositionalSchema
      [.enumS [.numS 0]] rfl).1 (by decide)).1,
   ((getRuleOptionsSchema_arrayForm_wrapped rulePositionalSchema
      [.enumS [.numS 0]] rfl).1 (by decide)).2 [.numV 0, .numV 1] (by decide)⟩

/-- C9: an entry whose first options element is the severity `0` is skipped
by `RuleValidator.validate` before any rule resolution, schema lookup,
compilation or options validation: removing such an entry from the config's
rules mapping leaves the whole call's outcome — the thrown error, the
instance cache and counter, and the logs of every `resolveRule` attempt and
every engine compile call — unchanged, whatever the ruleId names. -/
theorem validate_skips_disabled_entries
    (repl : List (List Char × List (List Char)))
    (pl : Option (List (List Char × Plugin)))
    (pre post : List (List Char × List JsonValue))
    (rid : List Char) (opts : List JsonValue) (s : VState)
    (h0 : isSeverityZero opts = true) :
    RuleValidator.validate repl ⟨pl, some (pre ++ (rid, opts) :: post)⟩ s
      = RuleValidator.validate repl ⟨pl, some (pre ++ post)⟩ s := by
  show processRules repl ⟨pl, some (pre ++ (rid, opts) :: post)⟩
      (pre ++ (rid, opts) :: post) s
    = processRules repl ⟨pl, some (pre ++ post)⟩ (pre ++ post) s
  calc processRules repl ⟨pl, some (pre ++ (rid, opts) :: post)⟩
        (pre ++ (rid, opts) :: post) s
      = processRules repl ⟨pl, some (pre ++ post)⟩
        (pre ++ (rid, opts) :: post) s :=
        processRules_plugins_only repl pl _ _ _ s
    _ = processRules repl ⟨pl, some (pre ++ post)⟩ (pre ++ post) s :=
        processRules_skip_middle repl _ rid opts post h0 pre s

/-- Witness for C9: the disabled entry `{"some-rule": [0, "anything"]}`
names no existing rule, yet its presence changes nothing about the call
(so in particular the call throws nothing, as the empty-rules call on the
right trivially does not). -/
theorem validate_skips_disabled_entries_witness :
    RuleValidator.validate []
        ⟨skipPlugins, some [(toCL "some-rule", [.numV 0, .strV "anything"])]⟩
        initialVState
      = RuleValidator.validate [] ⟨skipPlugins, some []⟩ initialVState ∧
    (RuleValidator.validate [] ⟨skipPlugins, some []⟩ initialVState).2 = none :=
  ⟨validate_skips_disabled_entries [] skipPlugins [] []
      (toCL "some-rule") [.numV 0, .strV "anything"] initialVState rfl,
   rfl⟩

/-- C2 counterexample: the claim says the options schema of a given
RuleDefinition object is compiled at most once per `RuleValidator` instance,
across all calls to `validate`.  For a rule whose schema the engine throws
on, `validate` calls `ajv.compile` uncaught: nothing is cached, the
exception propagates, and a second `validate` call on the same instance
invokes the engine again for the same rule object — two compile calls for
identity `cfgObj 0`, not at most one. -/
theorem rv_compile_twice_on_throwing_schema :
    compileCallsFor
      (runValidates [] [cfgThrowingSchema, cfgThrowingSchema] initialVState)
      (ObjId.cfgObj 0) = 2 := by
  decide

/-- C2 (amended): within one `RuleValidator` instance, across all calls to
`validate`, the options schema of a given RuleDefinition object is
*successfully* compiled at most once — the compiled validator is cached
under the RuleDefinition's identity (not the ruleId string), so aliased
ruleIds share one cache entry; only a compilation the engine throws on is
not cached and can recur on a later call. -/
theorem rv_successful_compile_at_most_once
    (repl : List (List Char × List (List Char)))
    (cfgs : List Config) (oid : ObjId) :
    successfulCompilesFor (runValidates repl cfgs initialVState) oid ≤ 1 :=
  (runValidates_inv repl cfgs initialVState cacheInv_initial oid).2

/-- C10 counterexample: the claim ends "...their options schema is looked up
and compiled anew for every configured entry in every validate call".  Two
`validate` calls on a config whose only (enabled) rule is function-form do
perform two lookups (`resolved` has both attempts) but make zero engine
compile calls: the fresh `{create}` wrapper carries no schema, so
`getRuleOptionsSchema` yields `null` and nothing is ever compiled, not one
compile call per entry per call. -/
theorem rv_functionRule_never_compiled_cx :
    (runValidates [] [cfgFunctionRule, cfgFunctionRule] initialVState).resolved.length = 2 ∧
    (runValidates [] [cfgFunctionRule, cfgFunctionRule] initialVState).log.length = 0 := by
  exact ⟨by decide, by decide⟩

/-- C10 (amended): a function-form rule is wrapped in a newly created
`{create}` object on every `getRuleFromConfig` call, so two lookups of the
same ruleId return distinct objects (below: identities `freshObj 0` and
`freshObj 1` from two successive calls) and the identity-keyed cache never
hits for them; their options schema is looked up anew each time, but the
wrapper exposes no schema, so it resolves to `null` and is never compiled —
every engine compile call ever logged is for a configuration-owned rule
object. -/
theorem rv_functionRule_fresh_and_uncompiled :
    (∀ (repl : List (List Char × List (List Char))) (cfgs : List Config),
      ((runValidates repl cfgs initialVState).log.map Prod.fst).all isCfgOid = true) ∧
    getRuleFromConfig funRuleId cfgFunctionRule 0
      = .ok (some ⟨.freshObj 0, none, none⟩, 1) ∧
    getRuleFromConfig funRuleId cfgFunctionRule 1
      = .ok (some ⟨.freshObj 1, none, none⟩, 2) := by
  refine ⟨?_, rfl, rfl⟩
  intro repl cfgs
  have hlog := runValidates_logCfg repl cfgs initialVState (by intro p hp; simp [initialVState] at hp)
  rw [List.all_eq_true]
  intro o ho
  rcases List.mem_map.mp ho with ⟨p, hp, hpo⟩
  rw [← hpo]
  exact hlog p hp

end Eslint
